import Mathlib

/-!
Shallow embedding of the kalshi-trader trading-simulation core:
signal detection (`detectMispricings`, `getTopSignals`), fractional-Kelly
position sizing (`kellyFraction`, `sizePosition`, `sizeFromSignal`), trade
lifecycle management (`openTrade`, `closeTrade`, `resolveSettledTrades`),
bankroll accounting (`calculateBankroll`) and the batch executor
(`executePaperTrades`).

JavaScript numbers are modelled as exact rationals (ℚ); `Math.round` is
rounding half toward +∞ (`⌊x + 1/2⌋`), `Math.floor` is `Int.floor`.
Wall-clock timestamp columns (`opened_at`, `closed_at`) are elided: no
behaviour in the verified core depends on them.
-/

namespace KalshiTrader

/-- JavaScript `Math.round`: round half toward positive infinity. -/
def jsRound (x : ℚ) : ℤ := ⌊x + 1/2⌋

/-- `Math.round(x * 100) / 100` — round to cents. -/
def round2 (x : ℚ) : ℚ := (jsRound (x * 100) : ℚ) / 100

/-- `Math.round(x * 1000) / 1000` — round to 3 decimal places. -/
def round3 (x : ℚ) : ℚ := (jsRound (x * 1000) : ℚ) / 1000

/-- `Math.round(x * 10000) / 10000` — round to 4 decimal places. -/
def round4 (x : ℚ) : ℚ := (jsRound (x * 10000) : ℚ) / 10000

/-! ### Position sizer (`position-sizer.js`) -/

/-- `kellyFraction(modelProb, entryPrice)` from `position-sizer.js`. -/
def kellyFraction (modelProb entryPrice : ℚ) : ℚ :=
  if entryPrice ≤ 0 ∨ 1 ≤ entryPrice then 0
  else if modelProb ≤ 0 ∨ 1 ≤ modelProb then 0
  else
    let b := (1 - entryPrice) / entryPrice
    let p := modelProb
    let q := 1 - p
    (p * b - q) / b

/-- Result record of `sizePosition`. -/
structure SizingResult where
  contracts : ℤ
  costBasis : ℚ
  kellyFull : ℚ
  kellyAdjusted : ℚ
  fraction : ℚ
deriving DecidableEq, Repr

/-- `sizePosition({modelProb, entryPrice, bankroll, kellyMultiplier, maxPositionPct})`
from `position-sizer.js`. -/
def sizePosition (modelProb entryPrice bankroll kellyMultiplier maxPositionPct : ℚ) :
    SizingResult :=
  let kellyFull := kellyFraction modelProb entryPrice
  if kellyFull ≤ 0 then
    ⟨0, 0, kellyFull, 0, 0⟩
  else
    let kellyAdjusted := kellyFull * kellyMultiplier
    let maxFraction := maxPositionPct / 100
    let fraction := min kellyAdjusted maxFraction
    let dollarAmount := bankroll * fraction
    let contracts := ⌊dollarAmount / entryPrice⌋
    if contracts ≤ 0 then
      ⟨0, 0, kellyFull, kellyAdjusted, fraction⟩
    else
      let costBasis := (contracts : ℚ) * entryPrice
      ⟨contracts, round2 costBasis, round4 kellyFull, round4 kellyAdjusted, round4 fraction⟩

/-- A mispricing signal (`MispricingSignal` in `mispricing.js`). -/
structure MispricingSignal where
  ticker : String
  eventTicker : String
  title : String
  category : String
  marketPrice : ℚ
  modelProb : ℚ
  confidence : ℚ
  modelName : String
  edge : ℚ
  absEdge : ℚ
  side : String
  score : ℚ
deriving DecidableEq, Repr

/-- Result record of `sizeFromSignal`: the `sizePosition` result spread together
with the signal's side and the (cent-rounded) entry price. -/
structure SignalSizing extends SizingResult where
  side : String
  entryPrice : ℚ
deriving DecidableEq, Repr

/-- `sizeFromSignal(signal, {bankroll, kellyMultiplier, maxPositionPct})` from
`position-sizer.js`. -/
def sizeFromSignal (signal : MispricingSignal)
    (bankroll kellyMultiplier maxPositionPct : ℚ) : SignalSizing :=
  let entryPrice := if signal.side = "yes" then signal.marketPrice else 1 - signal.marketPrice
  let modelProb := if signal.side = "yes" then signal.modelProb else 1 - signal.modelProb
  let sizing := sizePosition modelProb entryPrice bankroll kellyMultiplier maxPositionPct
  { toSizingResult := sizing, side := signal.side, entryPrice := round2 entryPrice }

/-! ### Basic rounding lemmas -/

theorem round2_zero : round2 0 = 0 := by
  simp [round2, jsRound]
  norm_num

theorem round2_add_intCents (x : ℚ) (m : ℤ) : round2 (x + m / 100) = round2 x + m / 100 := by
  unfold round2 jsRound
  have h : (x + (m : ℚ) / 100) * 100 + 1/2 = (x * 100 + 1/2) + (m : ℚ) := by ring
  rw [h, Int.floor_add_int]
  push_cast
  ring

theorem round2_intCents (m : ℤ) : round2 ((m : ℚ) / 100) = (m : ℚ) / 100 := by
  have h := round2_add_intCents 0 m
  simpa [round2_zero] using h

/-- `round2` always produces a whole number of cents. -/
theorem round2_cents (x : ℚ) : ∃ k : ℤ, round2 x = (k : ℚ) / 100 :=
  ⟨jsRound (x * 100), rfl⟩

/-! ### Position-sizer lemmas (shared by several claims) -/

theorem sizePosition_contracts_nonneg
    (modelProb entryPrice bankroll kellyMultiplier maxPositionPct : ℚ) :
    0 ≤ (sizePosition modelProb entryPrice bankroll kellyMultiplier maxPositionPct).contracts := by
  unfold sizePosition
  dsimp only
  split_ifs with h1 h2
  · exact le_refl 0
  · exact le_refl 0
  · dsimp only
    omega

theorem sizePosition_costBasis_round2
    (modelProb entryPrice bankroll kellyMultiplier maxPositionPct : ℚ) :
    (sizePosition modelProb entryPrice bankroll kellyMultiplier maxPositionPct).costBasis =
      round2 (((sizePosition modelProb entryPrice bankroll kellyMultiplier
        maxPositionPct).contracts : ℚ) * entryPrice) := by
  unfold sizePosition
  dsimp only
  split_ifs with h1 h2
  · simp [round2_zero]
  · simp [round2_zero]
  · rfl

/-! ### Trade ledger (`paper_trades` table and `paper-trader.js` / resolution tracker) -/

/-- The `resolution` column enum: `'open' | 'win' | 'loss' | 'sold'`. -/
inductive Resolution where
  | open_
  | win
  | loss
  | sold
deriving DecidableEq, Repr

/-- A row of the `paper_trades` table (timestamps elided). -/
structure Trade where
  id : ℕ
  ticker : String
  side : String
  entry_price : ℚ
  contracts : ℤ
  cost_basis : ℚ
  model_edge : ℚ
  category : String
  exit_price : Option ℚ
  revenue : Option ℚ
  profit : Option ℚ
  profit_pct : Option ℚ
  resolution : Resolution
deriving DecidableEq, Repr

/-- The mutable trade ledger: the `paper_trades` rows in insertion (rowid)
order, plus the next AUTOINCREMENT id. -/
structure LedgerState where
  trades : List Trade
  nextId : ℕ
deriving DecidableEq, Repr

/-- A freshly created database: no trades, first rowid 1. -/
def initLedger : LedgerState := ⟨[], 1⟩

/-- `SELECT id FROM paper_trades WHERE ticker = ? AND resolution = 'open'`
returns a row. -/
def hasOpenTrade (s : LedgerState) (ticker : String) : Bool :=
  s.trades.any (fun t => t.ticker == ticker && t.resolution == Resolution.open_)

/-- The non-null return value of `openTrade`. -/
structure OpenResult where
  tradeId : ℕ
  contracts : ℤ
  costBasis : ℚ
  side : String
deriving DecidableEq, Repr

/-- `openTrade(db, signal, {bankroll, kellyMultiplier, maxPositionPct})` from
`paper-trader.js`: returns the result and the updated ledger. -/
def openTrade (s : LedgerState) (signal : MispricingSignal)
    (bankroll kellyMultiplier maxPositionPct : ℚ) : Option OpenResult × LedgerState :=
  if hasOpenTrade s signal.ticker then (none, s)
  else
    let sizing := sizeFromSignal signal bankroll kellyMultiplier maxPositionPct
    if sizing.contracts ≤ 0 then (none, s)
    else
      let t : Trade :=
        { id := s.nextId
          ticker := signal.ticker
          side := sizing.side
          entry_price := sizing.entryPrice
          contracts := sizing.contracts
          cost_basis := sizing.costBasis
          model_edge := signal.edge
          category := signal.category
          exit_price := none
          revenue := none
          profit := none
          profit_pct := none
          resolution := Resolution.open_ }
      (some ⟨s.nextId, sizing.contracts, sizing.costBasis, sizing.side⟩,
        ⟨s.trades ++ [t], s.nextId + 1⟩)

/-- The non-null return value of `closeTrade`. -/
structure CloseResult where
  profit : ℚ
  profitPct : ℚ
deriving DecidableEq, Repr

/-- `closeTrade(db, tradeId, exitPrice)` from `paper-trader.js`. -/
def closeTrade (s : LedgerState) (tradeId : ℕ) (exitPrice : ℚ) :
    Option CloseResult × LedgerState :=
  match s.trades.find? (fun t => t.id == tradeId && t.resolution == Resolution.open_) with
  | none => (none, s)
  | some trade =>
    let revenue := (trade.contracts : ℚ) * exitPrice
    let profit := revenue - trade.cost_basis
    let profitPct := if 0 < trade.cost_basis then profit / trade.cost_basis * 100 else 0
    let newTrades := s.trades.map (fun t =>
      if t.id == tradeId then
        { t with
            exit_price := some exitPrice
            revenue := some revenue
            profit := some profit
            profit_pct := some profitPct
            resolution := Resolution.sold }
      else t)
    (some ⟨round2 profit, round2 profitPct⟩, ⟨newTrades, s.nextId⟩)

/-- The `markets` table restricted to what resolution needs: `ticker` is the
primary key, so `result` lookup is a partial function from tickers. -/
def MarketResults : Type := String → Option String

/-- `m.result IS NOT NULL AND m.result != ''` for the trade's ticker. -/
def settledResult (mres : MarketResults) (ticker : String) : Option String :=
  match mres ticker with
  | some r => if r = "" then none else some r
  | none => none

/-- A trade is picked up by the `resolveSettledTrades` query: it is `open`
and its market has a non-empty terminal result. -/
def tradeQualifies (mres : MarketResults) (t : Trade) : Bool :=
  t.resolution == Resolution.open_ && (settledResult mres t.ticker).isSome

/-- The per-trade update performed inside the `resolveSettledTrades` loop. -/
def resolveTrade (mres : MarketResults) (t : Trade) : Trade :=
  match settledResult mres t.ticker with
  | some r =>
    if t.resolution = Resolution.open_ then
      let won := t.side = r
      let exitPrice : ℚ := if won then 1 else 0
      let revenue := (t.contracts : ℚ) * exitPrice
      let profit := revenue - t.cost_basis
      let profitPct := if 0 < t.cost_basis then profit / t.cost_basis * 100 else 0
      { t with
          exit_price := some exitPrice
          revenue := some revenue
          profit := some profit
          profit_pct := some profitPct
          resolution := if won then Resolution.win else Resolution.loss }
    else t
  | none => t

/-- The profit realized for a qualifying trade in the resolution pass. -/
def resolvedProfit (mres : MarketResults) (t : Trade) : ℚ :=
  match settledResult mres t.ticker with
  | some r => (if t.side = r then (t.contracts : ℚ) else 0) - t.cost_basis
  | none => 0

/-- The aggregate report returned by `resolveSettledTrades`. -/
structure ResolveReport where
  resolved : ℕ
  wins : ℕ
  losses : ℕ
  totalProfit : ℚ
deriving DecidableEq, Repr

/-- `resolveSettledTrades(db)` from the resolution tracker (`resolution.js`). -/
def resolveSettledTrades (mres : MarketResults) (s : LedgerState) :
    ResolveReport × LedgerState :=
  let qualifying := s.trades.filter (tradeQualifies mres)
  let report : ResolveReport :=
    { resolved := qualifying.length
      wins := (qualifying.filter (fun t => t.side == (settledResult mres t.ticker).getD "")).length
      losses := (qualifying.filter (fun t => !(t.side == (settledResult mres t.ticker).getD ""))).length
      totalProfit := round2 ((qualifying.map (resolvedProfit mres)).sum) }
  (report, ⟨s.trades.map (resolveTrade mres), s.nextId⟩)

/-- The snapshot returned by `calculateBankroll`. -/
structure Bankroll where
  available : ℚ
  invested : ℚ
  realizedPnl : ℚ
  totalValue : ℚ
deriving DecidableEq, Repr

/-- `SELECT COALESCE(SUM(cost_basis), 0) ... WHERE resolution = 'open'`. -/
def openCostOf (s : LedgerState) : ℚ :=
  ((s.trades.filter (fun t => t.resolution == Resolution.open_)).map (fun t => t.cost_basis)).sum

/-- `SELECT COALESCE(SUM(profit), 0) ... WHERE resolution IN ('win','loss','sold')`
(SQL `SUM` skips NULL profits). -/
def realizedPnlOf (s : LedgerState) : ℚ :=
  ((s.trades.filter (fun t =>
      t.resolution == Resolution.win || t.resolution == Resolution.loss ||
        t.resolution == Resolution.sold)).map (fun t => t.profit.getD 0)).sum

/-- `calculateBankroll(db, startingBankroll)` from `paper-trader.js`. -/
def calculateBankroll (s : LedgerState) (startingBankroll : ℚ) : Bankroll :=
  let openCost := openCostOf s
  let realizedPnl := realizedPnlOf s
  let available := startingBankroll - openCost + realizedPnl
  let totalValue := available + openCost
  ⟨round2 available, round2 openCost, round2 realizedPnl, round2 totalValue⟩

/-- The aggregate report returned by `executePaperTrades`. -/
structure ExecReport where
  opened : ℕ
  skipped : ℕ
deriving DecidableEq, Repr

/-- The `for (const signal of signals)` loop of `executePaperTrades`.
`total` is the length of the full signal list (JS `signals.length`). -/
def executeLoop (startingBankroll kellyMultiplier maxPositionPct : ℚ) (total : ℕ) :
    List MispricingSignal → LedgerState → ℕ → ℕ → ExecReport × LedgerState
  | [], s, opened, skipped => (⟨opened, skipped⟩, s)
  | sig :: rest, s, opened, skipped =>
    let available := (calculateBankroll s startingBankroll).available
    if available ≤ 0 then
      (⟨opened, skipped + (total - opened - skipped)⟩, s)
    else
      match openTrade s sig available kellyMultiplier maxPositionPct with
      | (some _, s') =>
        executeLoop startingBankroll kellyMultiplier maxPositionPct total rest s' (opened + 1) skipped
      | (none, s') =>
        executeLoop startingBankroll kellyMultiplier maxPositionPct total rest s' opened (skipped + 1)

/-- `executePaperTrades(db, signals, {startingBankroll, kellyMultiplier,
maxPositionPct})` from `paper-trader.js`. -/
def executePaperTrades (s : LedgerState) (signals : List MispricingSignal)
    (startingBankroll kellyMultiplier maxPositionPct : ℚ) : ExecReport × LedgerState :=
  executeLoop startingBankroll kellyMultiplier maxPositionPct signals.length signals s 0 0

/-! ### Signal detector (`mispricing.js`) -/

/-- A row of the `markets` table (columns the detector reads). -/
structure MarketRow where
  ticker : String
  event_ticker : String
  title : String
  category : String
  last_yes_price : Option ℚ
  status : String
deriving DecidableEq, Repr

/-- A row of the `model_estimates` table (columns the detector reads). -/
structure EstimateRow where
  ticker : String
  timestamp : ℤ
  model_name : String
  estimated_prob : ℚ
  confidence : ℚ
deriving DecidableEq, Repr

/-- The per-market estimates subquery of `detectMispricings`: rows for the
ticker whose timestamp equals the per-`(ticker, model_name)` maximum
(`INNER JOIN ... MAX(timestamp) ... GROUP BY ticker, model_name`).
Every row tied at the maximal timestamp joins through. -/
def latestEstimatesFor (ests : List EstimateRow) (ticker : String) : List EstimateRow :=
  let mine := ests.filter (fun e => e.ticker == ticker)
  mine.filter (fun e =>
    mine.all (fun e2 => !(e2.model_name == e.model_name) || decide (e2.timestamp ≤ e.timestamp)))

/-- The inner `for (const est of estimates)` loop of `detectMispricings`. -/
def signalsForMarket (m : MarketRow) (price : ℚ) (ests : List EstimateRow)
    (minEdgePct minConfidence : ℚ) : List MispricingSignal :=
  (latestEstimatesFor ests m.ticker).filterMap (fun est =>
    if est.confidence < minConfidence then none
    else
      let edge := est.estimated_prob - price
      let absEdge := |edge|
      let edgePct := absEdge * 100
      if edgePct < minEdgePct then none
      else
        some
          { ticker := m.ticker
            eventTicker := m.event_ticker
            title := m.title
            category := m.category
            marketPrice := price
            modelProb := est.estimated_prob
            confidence := est.confidence
            modelName := est.model_name
            edge := round3 edge
            absEdge := round3 absEdge
            side := if 0 < edge then "yes" else "no"
            score := round3 (absEdge * est.confidence) })

/-- Stable insertion of a signal into a score-descending list (the effect of
the JS stable `sort((a, b) => b.score - a.score)`). -/
def insertByScore (x : MispricingSignal) : List MispricingSignal → List MispricingSignal
  | [] => [x]
  | y :: ys => if y.score ≤ x.score then x :: y :: ys else y :: insertByScore x ys

/-- Stable sort by score descending. -/
def sortByScore : List MispricingSignal → List MispricingSignal
  | [] => []
  | x :: xs => insertByScore x (sortByScore xs)

/-- `detectMispricings(db, {minEdgePct, minConfidence, minLiquidity, coinFlipMin,
coinFlipMax})` from `mispricing.js`. The `minLiquidity` option is accepted
exactly as in the source signature. -/
def detectMispricings (markets : List MarketRow) (ests : List EstimateRow)
    (minEdgePct minConfidence minLiquidity coinFlipMin coinFlipMax : ℚ) :
    List MispricingSignal :=
  let eligible := markets.filterMap (fun m =>
    match m.last_yes_price with
    | some p =>
      if m.status == "active" && decide (coinFlipMin ≤ p) && decide (p ≤ coinFlipMax) then
        some (m, p)
      else none
    | none => none)
  sortByScore ((eligible.map (fun mp =>
    signalsForMarket mp.1 mp.2 ests minEdgePct minConfidence)).flatten)

/-- `getTopSignals(db, {limit, ...})` from `mispricing.js`. -/
def getTopSignals (markets : List MarketRow) (ests : List EstimateRow) (limit : ℕ)
    (minEdgePct minConfidence minLiquidity coinFlipMin coinFlipMax : ℚ) :
    List MispricingSignal :=
  (detectMispricings markets ests minEdgePct minConfidence minLiquidity coinFlipMin
    coinFlipMax).take limit

/-! ### Operation sequences over the ledger -/

/-- One public mutation of the trade ledger. -/
inductive Op where
  | openOp (sig : MispricingSignal) (bankroll kellyMultiplier maxPositionPct : ℚ)
  | closeOp (tradeId : ℕ) (exitPrice : ℚ)
  | resolveOp (mres : MarketResults)

/-- State reached after one operation (return values discarded). -/
def applyOp : Op → LedgerState → LedgerState
  | .openOp sig b k m, s => (openTrade s sig b k m).2
  | .closeOp tradeId p, s => (closeTrade s tradeId p).2
  | .resolveOp mres, s => (resolveSettledTrades mres s).2

/-- State reached after a sequence of operations. -/
def runOps : List Op → LedgerState → LedgerState
  | [], s => s
  | op :: ops, s => runOps ops (applyOp op s)

/-! ### Claim C3: `kellyFraction` -/

unseal Rat.mul Rat.inv Rat.add Rat.sub in
/-- C3: `kellyFraction(prob, price)` returns 0 whenever `price` or `prob` is
outside the open interval (0,1); otherwise it returns `(prob*b - (1-prob))/b`
with `b = (1-price)/price`; and `kellyFraction(0.55, 0.40) = 0.25`. -/
theorem kellyFraction_spec :
    (∀ prob price : ℚ, price ≤ 0 ∨ 1 ≤ price ∨ prob ≤ 0 ∨ 1 ≤ prob →
      kellyFraction prob price = 0) ∧
    (∀ prob price : ℚ, 0 < price → price < 1 → 0 < prob → prob < 1 →
      kellyFraction prob price =
        (prob * ((1 - price) / price) - (1 - prob)) / ((1 - price) / price)) ∧
    kellyFraction (55/100) (40/100) = 25/100 := by
  refine ⟨?_, ?_, by decide⟩
  · intro prob price h
    unfold kellyFraction
    split_ifs with h1 h2
    · rfl
    · rfl
    · push_neg at h1 h2
      rcases h with h | h | h | h <;> linarith [h1.1, h1.2, h2.1, h2.2]
  · intro prob price h1 h2 h3 h4
    unfold kellyFraction
    rw [if_neg (by push_neg; exact ⟨h1, h2⟩), if_neg (by push_neg; exact ⟨h3, h4⟩)]

/-- C3 witness: both hypotheses discharged at concrete inputs. -/
theorem kellyFraction_spec_witness :
    kellyFraction (1/2) 2 = 0 ∧
    kellyFraction (55/100) (40/100) =
      ((55/100) * ((1 - 40/100) / (40/100)) - (1 - 55/100)) / ((1 - 40/100) / (40/100)) :=
  ⟨kellyFraction_spec.1 (1/2) 2 (Or.inr (Or.inl (by norm_num))),
   kellyFraction_spec.2.1 (55/100) (40/100) (by norm_num) (by norm_num) (by norm_num)
     (by norm_num)⟩

/-! ### Claim C7: `sizePosition` contract count and cost basis -/

unseal Rat.mul Rat.inv Rat.add Rat.sub in
/-- C7 counterexample: at `modelProb = 0.9`, `entryPrice = 0.333`,
`bankroll = 20`, `kellyMultiplier = 0.25`, `maxPositionPct = 5`, the returned
cost basis is 1.00 while `contracts × entryPrice = 3 × 0.333 = 0.999`, so
`costBasis` is **not** exactly `contracts × entryPrice`. -/
theorem sizePosition_exact_costBasis_cex :
    (sizePosition (9/10) (333/1000) 20 (1/4) 5).contracts = 3 ∧
    (sizePosition (9/10) (333/1000) 20 (1/4) 5).costBasis = 1 ∧
    ¬ (sizePosition (9/10) (333/1000) 20 (1/4) 5).costBasis =
        ((sizePosition (9/10) (333/1000) 20 (1/4) 5).contracts : ℚ) * (333/1000) := by
  decide

/-- C7 (amended): for all inputs, `sizePosition` returns a non-negative
integer contract count, and the returned `costBasis` equals
`contracts × entryPrice` rounded to cents. -/
theorem sizePosition_contracts_costBasis
    (modelProb entryPrice bankroll kellyMultiplier maxPositionPct : ℚ) :
    0 ≤ (sizePosition modelProb entryPrice bankroll kellyMultiplier maxPositionPct).contracts ∧
    (sizePosition modelProb entryPrice bankroll kellyMultiplier maxPositionPct).costBasis =
      round2 (((sizePosition modelProb entryPrice bankroll kellyMultiplier
        maxPositionPct).contracts : ℚ) * entryPrice) :=
  ⟨sizePosition_contracts_nonneg modelProb entryPrice bankroll kellyMultiplier maxPositionPct,
   sizePosition_costBasis_round2 modelProb entryPrice bankroll kellyMultiplier maxPositionPct⟩

/-! ### Claim C10: `minLiquidity` is never consulted -/

/-- C10: the outputs of `detectMispricings` and `getTopSignals` are independent
of the `minLiquidity` option: with all other inputs identical, any two values
of `minLiquidity` produce identical signal lists. -/
theorem detectMispricings_minLiquidity_independent
    (markets : List MarketRow) (ests : List EstimateRow) (limit : ℕ)
    (minEdgePct minConfidence l1 l2 coinFlipMin coinFlipMax : ℚ) :
    detectMispricings markets ests minEdgePct minConfidence l1 coinFlipMin coinFlipMax =
      detectMispricings markets ests minEdgePct minConfidence l2 coinFlipMin coinFlipMax ∧
    getTopSignals markets ests limit minEdgePct minConfidence l1 coinFlipMin coinFlipMax =
      getTopSignals markets ests limit minEdgePct minConfidence l2 coinFlipMin coinFlipMax :=
  ⟨rfl, rfl⟩

/-! ### Claim C9: timestamp ties in the latest-estimate query -/

/-- One active market priced inside the default coin-flip band. -/
def tieMarkets : List MarketRow := [⟨"M", "", "", "", some (1/2), "active"⟩]

/-- Two estimates from the same source for the same market sharing the maximal
timestamp. -/
def tieEstimates : List EstimateRow :=
  [⟨"M", 100, "src", 8/10, 9/10⟩, ⟨"M", 100, "src", 9/10, 9/10⟩]

unseal Rat.mul Rat.inv Rat.add Rat.sub in
/-- C9 failing input: with two estimates from source `src` for market `M` that
share the maximal timestamp (both passing the confidence and edge filters),
`detectMispricings` emits **two** signals for the `(M, src)` pair — the
max-timestamp join keeps every tied row and no insertion-order tie-break
exists, contrary to the claim (and to the code's own "one per model" comment). -/
theorem detectMispricings_timestamp_tie :
    ((detectMispricings tieMarkets tieEstimates 5 (6/10) 0 (3/10) (7/10)).map
      (fun sig => (sig.ticker, sig.modelName))) = [("M", "src"), ("M", "src")] := by
  decide

/-! ### Claim C5: resolution is single-fire -/

theorem resolveTrade_ticker (mres : MarketResults) (t : Trade) :
    (resolveTrade mres t).ticker = t.ticker := by
  unfold resolveTrade
  split
  · split_ifs <;> rfl
  · rfl

theorem resolveTrade_of_match_none (mres : MarketResults) (t : Trade)
    (h : settledResult mres t.ticker = none) : resolveTrade mres t = t := by
  unfold resolveTrade
  rw [h]

theorem resolveTrade_of_not_open (mres : MarketResults) (t : Trade)
    (h : t.resolution ≠ Resolution.open_) : resolveTrade mres t = t := by
  unfold resolveTrade
  split
  · exact if_neg h
  · rfl

theorem tradeQualifies_resolveTrade (mres : MarketResults) (t : Trade) :
    tradeQualifies mres (resolveTrade mres t) = false := by
  unfold tradeQualifies
  rcases hsr : settledResult mres t.ticker with _ | r
  · rw [resolveTrade_ticker, hsr]
    simp
  · by_cases hop : t.resolution = Resolution.open_
    · unfold resolveTrade
      rw [hsr]
      dsimp only
      rw [if_pos hop]
      simp only [Bool.and_eq_false_imp]
      intro hcontra
      exfalso
      revert hcontra
      split <;> simp
    · rw [resolveTrade_of_not_open mres t hop]
      simp [hop]

theorem resolveTrade_idem (mres : MarketResults) (t : Trade) :
    resolveTrade mres (resolveTrade mres t) = resolveTrade mres t := by
  rcases hsr : settledResult mres t.ticker with _ | r
  · have h1 : resolveTrade mres t = t := by
      unfold resolveTrade
      rw [hsr]
    rw [h1, h1]
  · by_cases hop : t.resolution = Resolution.open_
    · apply resolveTrade_of_not_open
      unfold resolveTrade
      rw [hsr]
      dsimp only
      rw [if_pos hop]
      split <;> simp
    · rw [resolveTrade_of_not_open mres t hop, resolveTrade_of_not_open mres t hop]

/-- C5: resolution is single-fire — after one `resolveSettledTrades` pass every
settled-market trade is terminal, so running `resolveSettledTrades` again
reports zero trades resolved (zero wins, zero losses, zero profit) and leaves
the ledger unchanged; and a trade that is not in state `open` is never
modified by the per-trade resolution step. -/
theorem resolveSettledTrades_single_fire :
    (∀ (mres : MarketResults) (s : LedgerState),
      resolveSettledTrades mres (resolveSettledTrades mres s).2 =
        (⟨0, 0, 0, 0⟩, (resolveSettledTrades mres s).2)) ∧
    (∀ (mres : MarketResults) (t : Trade), t.resolution ≠ Resolution.open_ →
      resolveTrade mres t = t) := by
  constructor
  · intro mres s
    have hq : ((s.trades.map (resolveTrade mres)).filter (tradeQualifies mres)) = [] := by
      rw [List.filter_eq_nil_iff]
      intro a ha
      rcases List.mem_map.mp ha with ⟨t, _, rfl⟩
      simp [tradeQualifies_resolveTrade]
    have hmap : ((s.trades.map (resolveTrade mres)).map (resolveTrade mres)) =
        s.trades.map (resolveTrade mres) := by
      rw [List.map_map]
      exact List.map_congr_left (fun t _ => resolveTrade_idem mres t)
    show resolveSettledTrades mres ⟨s.trades.map (resolveTrade mres), s.nextId⟩ = _
    unfold resolveSettledTrades
    dsimp only
    rw [hq, hmap]
    simp [round2_zero]
  · exact resolveTrade_of_not_open

/-- Concrete sold trade for the C5 witness. -/
def exSold : Trade :=
  ⟨3, "S", "no", 1/2, 4, 2, 0, "", some (3/4), some 3, some 1, some 50, Resolution.sold⟩

/-- Market results used in concrete examples: every market resolved `yes`. -/
def exResults : MarketResults := fun _ => some "yes"

/-- Concrete open trade (the spec's resolution example: contracts=10,
costBasis=4.00, side `yes`). -/
def exTrade : Trade :=
  ⟨1, "T", "yes", 2/5, 10, 4, 0, "", none, none, none, none, Resolution.open_⟩

/-- Concrete one-trade ledger. -/
def exLedger : LedgerState := ⟨[exTrade], 2⟩

unseal Rat.mul Rat.inv Rat.add Rat.sub in
/-- C5 witness: the second resolution pass on a concrete settled ledger is a
no-op reporting zero resolutions, and the per-trade step fixes a sold trade. -/
theorem resolveSettledTrades_single_fire_witness :
    resolveSettledTrades exResults (resolveSettledTrades exResults exLedger).2 =
      (⟨0, 0, 0, 0⟩, (resolveSettledTrades exResults exLedger).2) ∧
    resolveTrade exResults exSold = exSold :=
  ⟨resolveSettledTrades_single_fire.1 exResults exLedger,
   resolveSettledTrades_single_fire.2 exResults exSold (by decide)⟩

/-! ### Claim C4: resolution payout computation -/

theorem resolveTrade_open_settled (mres : MarketResults) (t : Trade) (r : String)
    (hsr : settledResult mres t.ticker = some r) (hop : t.resolution = Resolution.open_) :
    resolveTrade mres t =
      { t with
          exit_price := some (if t.side = r then (1 : ℚ) else 0)
          revenue := some ((t.contracts : ℚ) * (if t.side = r then (1 : ℚ) else 0))
          profit := some ((t.contracts : ℚ) * (if t.side = r then (1 : ℚ) else 0) - t.cost_basis)
          profit_pct := some (if 0 < t.cost_basis then
            ((t.contracts : ℚ) * (if t.side = r then (1 : ℚ) else 0) - t.cost_basis) /
              t.cost_basis * 100 else 0)
          resolution := if t.side = r then Resolution.win else Resolution.loss } := by
  unfold resolveTrade
  rw [hsr]
  dsimp only
  rw [if_pos hop]

/-- C4: for every open trade whose market carries a non-empty terminal result,
`resolveSettledTrades` produces a record for it that is marked `win` iff the
trade's side equals the market result, with exit price exactly 1 on a win and
0 on a loss, `revenue = contracts × exitPrice`, `profit = revenue − costBasis`,
and `profitPercent = profit/costBasis × 100` (0 when the cost basis is 0). -/
theorem resolveSettledTrades_payout (mres : MarketResults) (s : LedgerState)
    (t : Trade) (r : String) (hmem : t ∈ s.trades)
    (hop : t.resolution = Resolution.open_)
    (hsr : settledResult mres t.ticker = some r)
    (hcb : 0 ≤ t.cost_basis) :
    ∃ t' ∈ (resolveSettledTrades mres s).2.trades,
      t'.id = t.id ∧ t'.ticker = t.ticker ∧ t'.side = t.side ∧
      t'.contracts = t.contracts ∧ t'.cost_basis = t.cost_basis ∧
      (t'.resolution = Resolution.win ↔ t.side = r) ∧
      (t'.resolution = Resolution.loss ↔ t.side ≠ r) ∧
      t'.exit_price = some (if t.side = r then (1 : ℚ) else 0) ∧
      t'.revenue = some ((t.contracts : ℚ) * (if t.side = r then (1 : ℚ) else 0)) ∧
      t'.profit = some ((t.contracts : ℚ) * (if t.side = r then (1 : ℚ) else 0) -
        t.cost_basis) ∧
      t'.profit_pct = some (if t.cost_basis = 0 then 0 else
        ((t.contracts : ℚ) * (if t.side = r then (1 : ℚ) else 0) - t.cost_basis) /
          t.cost_basis * 100) := by
  refine ⟨resolveTrade mres t, ?_, ?_⟩
  · show resolveTrade mres t ∈ s.trades.map (resolveTrade mres)
    exact List.mem_map_of_mem (resolveTrade mres) hmem
  · rw [resolveTrade_open_settled mres t r hsr hop]
    have hpct : (if 0 < t.cost_basis then
        ((t.contracts : ℚ) * (if t.side = r then (1 : ℚ) else 0) - t.cost_basis) /
          t.cost_basis * 100 else 0) =
        (if t.cost_basis = 0 then 0 else
        ((t.contracts : ℚ) * (if t.side = r then (1 : ℚ) else 0) - t.cost_basis) /
          t.cost_basis * 100) := by
      by_cases h0 : t.cost_basis = 0
      · have hnlt : ¬ 0 < t.cost_basis := by rw [h0]; exact lt_irrefl 0
        rw [if_neg hnlt, if_pos h0]
      · have hlt : 0 < t.cost_basis := lt_of_le_of_ne hcb (Ne.symm h0)
        rw [if_pos hlt, if_neg h0]
    refine ⟨rfl, rfl, rfl, rfl, rfl, ?_, ?_, rfl, rfl, rfl, ?_⟩
    · by_cases hw : t.side = r <;> simp [hw]
    · by_cases hw : t.side = r <;> simp [hw]
    · dsimp only
      rw [hpct]

unseal Rat.mul Rat.inv Rat.add Rat.sub in
/-- C4 witness: the spec's example — contracts=10, costBasis=4.00, side `yes`,
market result `yes` — yields exit price 1.0, revenue 10.00, profit 6.00 and
state `win`. -/
theorem resolveSettledTrades_payout_witness :
    ∃ t' ∈ (resolveSettledTrades exResults exLedger).2.trades,
      t'.id = exTrade.id ∧ t'.ticker = exTrade.ticker ∧ t'.side = exTrade.side ∧
      t'.contracts = exTrade.contracts ∧ t'.cost_basis = exTrade.cost_basis ∧
      (t'.resolution = Resolution.win ↔ exTrade.side = "yes") ∧
      (t'.resolution = Resolution.loss ↔ exTrade.side ≠ "yes") ∧
      t'.exit_price = some (if exTrade.side = "yes" then (1 : ℚ) else 0) ∧
      t'.revenue = some ((exTrade.contracts : ℚ) *
        (if exTrade.side = "yes" then (1 : ℚ) else 0)) ∧
      t'.profit = some ((exTrade.contracts : ℚ) *
        (if exTrade.side = "yes" then (1 : ℚ) else 0) - exTrade.cost_basis) ∧
      t'.profit_pct = some (if exTrade.cost_basis = 0 then 0 else
        ((exTrade.contracts : ℚ) * (if exTrade.side = "yes" then (1 : ℚ) else 0) -
          exTrade.cost_basis) / exTrade.cost_basis * 100) :=
  resolveSettledTrades_payout exResults exLedger exTrade "yes" (by decide) (by decide)
    (by decide) (by decide)

/-! ### Claim C8: persisted cost basis vs stored entry price -/

theorem round2_int_mul_cents (c j : ℤ) :
    round2 ((c : ℚ) * ((j : ℚ) / 100)) = (c : ℚ) * ((j : ℚ) / 100) := by
  have h : (c : ℚ) * ((j : ℚ) / 100) = ((c * j : ℤ) : ℚ) / 100 := by push_cast; ring
  rw [h, round2_intCents]

unseal Rat.mul Rat.inv Rat.add Rat.sub in
/-- C8 counterexample signal: market price 0.333 is not a whole number of
cents. -/
def cexSignal : MispricingSignal :=
  ⟨"T", "", "", "", 333/1000, 9/10, 1, "m", 0, 0, "yes", 0⟩

/-- The trade record `openTrade` persists for `cexSignal` on an empty ledger
with bankroll 20, quarter-Kelly and a 5% cap. -/
def cexTrade : Trade :=
  ⟨1, "T", "yes", 33/100, 3, 1, 0, "", none, none, none, none, Resolution.open_⟩

unseal Rat.mul Rat.inv Rat.add Rat.sub in
/-- C8 counterexample: for a signal with market price 0.333 (side `yes`,
model probability 0.9, bankroll 20), the persisted trade stores
`entry_price = 0.33` (rounded to cents), `contracts = 3` and
`cost_basis = 1.00` (0.999 rounded to cents), so
`cost_basis ≠ contracts × entry_price` (`1.00 ≠ 0.99`). -/
theorem openTrade_cost_basis_cex :
    (openTrade initLedger cexSignal 20 (1/4) 5).2.trades = [cexTrade] ∧
    ¬ cexTrade.cost_basis = (cexTrade.contracts : ℚ) * cexTrade.entry_price := by
  decide

/-- C8 (amended): whenever the signal's market price is a whole number of
cents, every trade record persisted by `openTrade` satisfies
`cost_basis = contracts × entry_price` for the stored entry price and stored
contract count; the stored entry price is the market price for `yes`-side
signals and `1 − marketPrice` for other (`no`-side) signals. -/
theorem openTrade_cost_basis (s : LedgerState) (sig : MispricingSignal)
    (bankroll kellyMultiplier maxPositionPct : ℚ)
    (hmp : ∃ k : ℤ, sig.marketPrice = (k : ℚ) / 100)
    (hsome : (openTrade s sig bankroll kellyMultiplier maxPositionPct).1 ≠ none) :
    ∃ t, (openTrade s sig bankroll kellyMultiplier maxPositionPct).2.trades =
        s.trades ++ [t] ∧
      t.side = sig.side ∧
      t.entry_price = (if sig.side = "yes" then sig.marketPrice else 1 - sig.marketPrice) ∧
      t.cost_basis = (t.contracts : ℚ) * t.entry_price := by
  obtain ⟨k, hk⟩ := hmp
  have hraw : ∃ j : ℤ,
      (if sig.side = "yes" then sig.marketPrice else 1 - sig.marketPrice) =
        (j : ℚ) / 100 := by
    by_cases hs : sig.side = "yes"
    · exact ⟨k, by rw [if_pos hs, hk]⟩
    · refine ⟨100 - k, ?_⟩
      rw [if_neg hs, hk]
      push_cast
      ring
  obtain ⟨j, hj⟩ := hraw
  unfold openTrade at hsome ⊢
  by_cases hh : hasOpenTrade s sig.ticker = true
  · rw [if_pos hh] at hsome
    exact absurd rfl hsome
  · rw [if_neg hh] at hsome ⊢
    dsimp only at hsome ⊢
    by_cases hc : (sizeFromSignal sig bankroll kellyMultiplier maxPositionPct).contracts ≤ 0
    · rw [if_pos hc] at hsome
      exact absurd rfl hsome
    · rw [if_neg hc] at hsome ⊢
      dsimp only
      refine ⟨_, rfl, rfl, ?_, ?_⟩
      · show (sizeFromSignal sig bankroll kellyMultiplier maxPositionPct).entryPrice = _
        show round2 (if sig.side = "yes" then sig.marketPrice else 1 - sig.marketPrice) = _
        rw [hj, round2_intCents]
      · show (sizeFromSignal sig bankroll kellyMultiplier maxPositionPct).costBasis =
          ((sizeFromSignal sig bankroll kellyMultiplier maxPositionPct).contracts : ℚ) *
            (sizeFromSignal sig bankroll kellyMultiplier maxPositionPct).entryPrice
        have hcb := sizePosition_costBasis_round2
          (if sig.side = "yes" then sig.modelProb else 1 - sig.modelProb)
          (if sig.side = "yes" then sig.marketPrice else 1 - sig.marketPrice)
          bankroll kellyMultiplier maxPositionPct
        show (sizePosition _ _ bankroll kellyMultiplier maxPositionPct).costBasis = _
        rw [hcb]
        show round2 (_ * (if sig.side = "yes" then sig.marketPrice else 1 - sig.marketPrice)) =
          _ * round2 (if sig.side = "yes" then sig.marketPrice else 1 - sig.marketPrice)
        rw [hj, round2_int_mul_cents, round2_intCents, ← hj]
        rfl

unseal Rat.mul Rat.inv Rat.add Rat.sub in
/-- Signal for the C8 witness: the spec's sizing example (price 0.40, model
probability 0.55). -/
def exSignal : MispricingSignal :=
  ⟨"W", "", "", "", 40/100, 55/100, 1, "m", 0, 0, "yes", 0⟩

unseal Rat.mul Rat.inv Rat.add Rat.sub in
/-- C8 witness: on the spec's example (bankroll 500, price 0.40, probability
0.55) the persisted trade satisfies the amended cost-basis identity. -/
theorem openTrade_cost_basis_witness :
    ∃ t, (openTrade initLedger exSignal 500 (1/4) 5).2.trades =
        initLedger.trades ++ [t] ∧
      t.side = exSignal.side ∧
      t.entry_price =
        (if exSignal.side = "yes" then exSignal.marketPrice else 1 - exSignal.marketPrice) ∧
      t.cost_basis = (t.contracts : ℚ) * t.entry_price :=
  openTrade_cost_basis initLedger exSignal 500 (1/4) 5 ⟨40, by norm_num [exSignal]⟩
    (by decide)

/-! ### Claim C2: at most one open trade per ticker -/

/-- Number of `open` trades for a ticker in the ledger. -/
def countOpen (s : LedgerState) (ticker : String) : ℕ :=
  (s.trades.filter (fun t => t.ticker == ticker && t.resolution == Resolution.open_)).length

theorem length_filter_map_le {α : Type} (l : List α) (f : α → α) (p : α → Bool)
    (h : ∀ a, p (f a) = true → p a = true) :
    ((l.map f).filter p).length ≤ (l.filter p).length := by
  induction l with
  | nil => simp
  | cons a l ih =>
    simp only [List.map_cons, List.filter_cons]
    by_cases hfa : p (f a) = true
    · rw [if_pos hfa, if_pos (h a hfa)]
      simpa using ih
    · rw [if_neg hfa]
      split
      · exact le_trans ih (Nat.le_succ _)
      · exact ih

theorem countOpen_eq_zero_of_not_hasOpenTrade (s : LedgerState) (ticker : String)
    (h : hasOpenTrade s ticker = false) : countOpen s ticker = 0 := by
  unfold hasOpenTrade at h
  unfold countOpen
  rw [List.length_eq_zero, List.filter_eq_nil_iff]
  intro t ht
  have := List.any_eq_false.mp h t ht
  simpa using this

theorem countOpen_openTrade (s : LedgerState) (sig : MispricingSignal)
    (bankroll kellyMultiplier maxPositionPct : ℚ) (ticker : String)
    (h : countOpen s ticker ≤ 1) :
    countOpen (openTrade s sig bankroll kellyMultiplier maxPositionPct).2 ticker ≤ 1 := by
  unfold openTrade
  by_cases hh : hasOpenTrade s sig.ticker = true
  · rw [if_pos hh]
    exact h
  · rw [if_neg hh]
    dsimp only
    by_cases hc : (sizeFromSignal sig bankroll kellyMultiplier maxPositionPct).contracts ≤ 0
    · rw [if_pos hc]
      exact h
    · rw [if_neg hc]
      unfold countOpen at *
      dsimp only
      rw [List.filter_append, List.length_append]
      by_cases ht : sig.ticker = ticker
      · have h0 : (s.trades.filter
            (fun t => t.ticker == ticker && t.resolution == Resolution.open_)).length = 0 := by
          apply countOpen_eq_zero_of_not_hasOpenTrade ⟨s.trades, s.nextId⟩
          rw [← ht]
          exact Bool.eq_false_iff.mpr hh
        rw [h0]
        simp [ht]
      · have hbeq : (sig.ticker == ticker) = false := by
          simpa using ht
        simpa [hbeq] using h

theorem countOpen_closeTrade (s : LedgerState) (tradeId : ℕ) (exitPrice : ℚ)
    (ticker : String) (h : countOpen s ticker ≤ 1) :
    countOpen (closeTrade s tradeId exitPrice).2 ticker ≤ 1 := by
  unfold closeTrade
  rcases hf : s.trades.find? (fun t => t.id == tradeId && t.resolution == Resolution.open_) with
    _ | trade
  · rw [hf]
    exact h
  · rw [hf]
    dsimp only
    unfold countOpen at *
    dsimp only
    refine le_trans (length_filter_map_le s.trades _ _ ?_) h
    intro a ha
    by_cases hid : a.id == tradeId
    · rw [if_pos hid] at ha
      simp at ha
    · rw [if_neg hid] at ha
      exact ha

theorem countOpen_resolve (mres : MarketResults) (s : LedgerState) (ticker : String)
    (h : countOpen s ticker ≤ 1) :
    countOpen (resolveSettledTrades mres s).2 ticker ≤ 1 := by
  unfold resolveSettledTrades
  unfold countOpen at *
  refine le_trans (length_filter_map_le s.trades _ _ ?_) h
  intro a ha
  rcases hsr : settledResult mres a.ticker with _ | r
  · rwa [resolveTrade_of_match_none mres a hsr] at ha
  · by_cases hop : a.resolution = Resolution.open_
    · exfalso
      rw [resolveTrade_open_settled mres a r hsr hop] at ha
      revert ha
      dsimp only
      split <;> simp
    · rwa [resolveTrade_of_not_open mres a hop] at ha

theorem countOpen_applyOp (op : Op) (s : LedgerState) (ticker : String)
    (h : ∀ tk, countOpen s tk ≤ 1) : countOpen (applyOp op s) ticker ≤ 1 := by
  cases op with
  | openOp sig b k m => exact countOpen_openTrade s sig b k m ticker (h ticker)
  | closeOp tradeId p => exact countOpen_closeTrade s tradeId p ticker (h ticker)
  | resolveOp mres => exact countOpen_resolve mres s ticker (h ticker)

theorem countOpen_runOps (ops : List Op) (s : LedgerState)
    (h : ∀ tk, countOpen s tk ≤ 1) : ∀ tk, countOpen (runOps ops s) tk ≤ 1 := by
  induction ops generalizing s with
  | nil => exact h
  | cons op ops ih => exact ih (applyOp op s) (fun tk => countOpen_applyOp op s tk h)

/-- C2: after any sequence of ledger operations from an empty ledger, at most
one `open` trade per ticker exists; and `openTrade` returns null and leaves
the ledger unchanged whenever an open trade for the signal's ticker exists. -/
theorem openTrade_unique_open :
    (∀ (ops : List Op) (ticker : String), countOpen (runOps ops initLedger) ticker ≤ 1) ∧
    (∀ (s : LedgerState) (sig : MispricingSignal) (bankroll kellyMultiplier maxPositionPct : ℚ),
      hasOpenTrade s sig.ticker = true →
      openTrade s sig bankroll kellyMultiplier maxPositionPct = (none, s)) := by
  constructor
  · intro ops ticker
    refine countOpen_runOps ops initLedger ?_ ticker
    intro tk
    simp [countOpen, initLedger]
  · intro s sig bankroll kellyMultiplier maxPositionPct h
    unfold openTrade
    rw [if_pos h]

unseal Rat.mul Rat.inv Rat.add Rat.sub in
/-- C2 witness: the invariant holds on a concrete run, and a second
`openTrade` for ticker `"T"` against a ledger already holding an open `"T"`
trade returns null and changes nothing. -/
theorem openTrade_unique_open_witness :
    countOpen (runOps [] initLedger) "T" ≤ 1 ∧
    openTrade exLedger cexSignal 20 (1/4) 5 = (none, exLedger) :=
  ⟨openTrade_unique_open.1 [] "T",
   openTrade_unique_open.2 exLedger cexSignal 20 (1/4) 5 (by decide)⟩

/-! ### Claim C6: batch executor counts and fail-fast -/

theorem executeLoop_counts (startingBankroll kellyMultiplier maxPositionPct : ℚ)
    (total : ℕ) (sigs : List MispricingSignal) :
    ∀ (s : LedgerState) (opened skipped : ℕ),
      opened + skipped + sigs.length = total →
      (executeLoop startingBankroll kellyMultiplier maxPositionPct total sigs s
          opened skipped).1.opened +
        (executeLoop startingBankroll kellyMultiplier maxPositionPct total sigs s
          opened skipped).1.skipped = total := by
  induction sigs with
  | nil =>
    intro s opened skipped h
    simpa using h
  | cons sig rest ih =>
    intro s opened skipped h
    unfold executeLoop
    dsimp only
    split_ifs with hav
    · dsimp only
      simp only [List.length_cons] at h
      omega
    · rcases hot : openTrade s sig ((calculateBankroll s startingBankroll).available)
          kellyMultiplier maxPositionPct with ⟨o, s'⟩
      simp only [List.length_cons] at h
      cases o with
      | none => exact ih s' opened (skipped + 1) (by omega)
      | some res => exact ih s' (opened + 1) skipped (by omega)

/-- C6: `executePaperTrades` satisfies `opened + skipped = signals.length` for
every input, and whenever the available bankroll is ≤ 0 at entry it opens no
trade, counts every signal as skipped, and leaves the ledger unchanged. -/
theorem executePaperTrades_counts :
    (∀ (s : LedgerState) (signals : List MispricingSignal)
        (startingBankroll kellyMultiplier maxPositionPct : ℚ),
      (executePaperTrades s signals startingBankroll kellyMultiplier
          maxPositionPct).1.opened +
        (executePaperTrades s signals startingBankroll kellyMultiplier
          maxPositionPct).1.skipped = signals.length) ∧
    (∀ (s : LedgerState) (signals : List MispricingSignal)
        (startingBankroll kellyMultiplier maxPositionPct : ℚ),
      (calculateBankroll s startingBankroll).available ≤ 0 →
      executePaperTrades s signals startingBankroll kellyMultiplier maxPositionPct =
        (⟨0, signals.length⟩, s)) ∧
    (∀ (startingBankroll kellyMultiplier maxPositionPct : ℚ) (total : ℕ)
        (sig : MispricingSignal) (rest : List MispricingSignal) (s : LedgerState)
        (opened skipped : ℕ),
      (calculateBankroll s startingBankroll).available ≤ 0 →
      executeLoop startingBankroll kellyMultiplier maxPositionPct total (sig :: rest) s
          opened skipped =
        (⟨opened, skipped + (total - opened - skipped)⟩, s)) := by
  refine ⟨?_, ?_, ?_⟩
  · intro s signals startingBankroll kellyMultiplier maxPositionPct
    exact executeLoop_counts startingBankroll kellyMultiplier maxPositionPct
      signals.length signals s 0 0 (by omega)
  · intro s signals startingBankroll kellyMultiplier maxPositionPct hav
    unfold executePaperTrades
    cases signals with
    | nil => rfl
    | cons sig rest =>
      unfold executeLoop
      dsimp only
      rw [if_pos hav]
      simp
  · intro startingBankroll kellyMultiplier maxPositionPct total sig rest s opened skipped hav
    unfold executeLoop
    dsimp only
    rw [if_pos hav]

unseal Rat.mul Rat.inv Rat.add Rat.sub in
/-- C6 witness: a concrete one-signal batch has `opened + skipped = 1`, and
with a zero starting bankroll (available = 0 ≤ 0) the batch opens nothing,
skips the whole list, and leaves the ledger unchanged. -/
theorem executePaperTrades_counts_witness :
    (executePaperTrades initLedger [exSignal] 100 (1/4) 5).1.opened +
      (executePaperTrades initLedger [exSignal] 100 (1/4) 5).1.skipped = 1 ∧
    executePaperTrades initLedger [exSignal] 0 (1/4) 5 = (⟨0, 1⟩, initLedger) ∧
    executeLoop 0 (1/4) 5 5 [exSignal] initLedger 2 1 = (⟨2, 3⟩, initLedger) :=
  ⟨executePaperTrades_counts.1 initLedger [exSignal] 100 (1/4) 5,
   executePaperTrades_counts.2.1 initLedger [exSignal] 0 (1/4) 5 (by decide),
   executePaperTrades_counts.2.2 0 (1/4) 5 5 exSignal [] initLedger 2 1 (by decide)⟩

/-! ### Claim C1: bankroll accounting identity -/

/-- A rational amount that is a whole number of cents. -/
def CentsAligned (x : ℚ) : Prop := ∃ k : ℤ, x = (k : ℚ) / 100

theorem centsAligned_sum (l : List ℚ) (h : ∀ x ∈ l, CentsAligned x) :
    CentsAligned l.sum := by
  induction l with
  | nil => exact ⟨0, by norm_num⟩
  | cons a l ih =>
    obtain ⟨k, hk⟩ := h a (List.mem_cons_self a l)
    obtain ⟨m, hm⟩ := ih (fun x hx => h x (List.mem_cons_of_mem a hx))
    refine ⟨k + m, ?_⟩
    rw [List.sum_cons, hk, hm]
    push_cast
    ring

/-- Every trade in the ledger has a cost basis that is a whole number of
cents (maintained because `openTrade` stores a cent-rounded cost basis and no
operation ever rewrites it). -/
def CentsLedger (s : LedgerState) : Prop := ∀ t ∈ s.trades, CentsAligned t.cost_basis

theorem sizeFromSignal_costBasis_cents (sig : MispricingSignal)
    (bankroll kellyMultiplier maxPositionPct : ℚ) :
    CentsAligned (sizeFromSignal sig bankroll kellyMultiplier maxPositionPct).costBasis := by
  show CentsAligned (sizePosition _ _ bankroll kellyMultiplier maxPositionPct).costBasis
  rw [sizePosition_costBasis_round2]
  exact round2_cents _

theorem centsLedger_openTrade (s : LedgerState) (sig : MispricingSignal)
    (bankroll kellyMultiplier maxPositionPct : ℚ) (h : CentsLedger s) :
    CentsLedger (openTrade s sig bankroll kellyMultiplier maxPositionPct).2 := by
  unfold openTrade
  by_cases hh : hasOpenTrade s sig.ticker = true
  · rw [if_pos hh]
    exact h
  · rw [if_neg hh]
    dsimp only
    by_cases hc : (sizeFromSignal sig bankroll kellyMultiplier maxPositionPct).contracts ≤ 0
    · rw [if_pos hc]
      exact h
    · rw [if_neg hc]
      intro t ht
      dsimp only at ht
      rcases List.mem_append.mp ht with hmem | hmem
      · exact h t hmem
      · rw [List.mem_singleton.mp hmem]
        exact sizeFromSignal_costBasis_cents sig bankroll kellyMultiplier maxPositionPct

theorem centsLedger_closeTrade (s : LedgerState) (tradeId : ℕ) (exitPrice : ℚ)
    (h : CentsLedger s) : CentsLedger (closeTrade s tradeId exitPrice).2 := by
  unfold closeTrade
  rcases hf : s.trades.find? (fun t => t.id == tradeId && t.resolution == Resolution.open_) with
    _ | trade
  · rw [hf]
    exact h
  · rw [hf]
    intro t ht
    rcases List.mem_map.mp ht with ⟨u, hu, rfl⟩
    have hcu := h u hu
    show CentsAligned (if (u.id == tradeId) = true then _ else u).cost_basis
    split
    · exact hcu
    · exact hcu

theorem resolveTrade_cost_basis (mres : MarketResults) (t : Trade) :
    (resolveTrade mres t).cost_basis = t.cost_basis := by
  unfold resolveTrade
  split
  · split_ifs <;> rfl
  · rfl

theorem centsLedger_resolve (mres : MarketResults) (s : LedgerState)
    (h : CentsLedger s) : CentsLedger (resolveSettledTrades mres s).2 := by
  intro t ht
  rcases List.mem_map.mp ht with ⟨u, hu, rfl⟩
  rw [resolveTrade_cost_basis]
  exact h u hu

theorem centsLedger_runOps (ops : List Op) : CentsLedger (runOps ops initLedger) := by
  have hgen : ∀ (ops : List Op) (s : LedgerState), CentsLedger s →
      CentsLedger (runOps ops s) := by
    intro ops
    induction ops with
    | nil => exact fun s h => h
    | cons op ops ih =>
      intro s h
      refine ih (applyOp op s) ?_
      cases op with
      | openOp sig b k m => exact centsLedger_openTrade s sig b k m h
      | closeOp tradeId p => exact centsLedger_closeTrade s tradeId p h
      | resolveOp mres => exact centsLedger_resolve mres s h
  exact hgen ops initLedger (by intro t ht; simp [initLedger] at ht)

theorem openCost_cents (s : LedgerState) (h : CentsLedger s) :
    CentsAligned (openCostOf s) := by
  apply centsAligned_sum
  intro x hx
  rcases List.mem_map.mp hx with ⟨t, ht, rfl⟩
  exact h t (List.mem_of_mem_filter ht)

unseal Rat.mul Rat.inv Rat.add Rat.sub in
/-- C1 counterexample: with starting bankroll 0.005 (half a cent) and the
empty operation sequence, `calculateBankroll` rounds the available figure up
to 0.01, so `available + invested = 0.01 ≠ 0.005 = startingBankroll +
realizedPnl` — the identity fails for a starting bankroll that is not a whole
number of cents. -/
theorem calculateBankroll_identity_cex :
    ¬ ((calculateBankroll (runOps [] initLedger) (1/200)).available +
        (calculateBankroll (runOps [] initLedger) (1/200)).invested =
        1/200 + (calculateBankroll (runOps [] initLedger) (1/200)).realizedPnl) := by
  decide

/-- C1 (amended): for every starting bankroll that is a whole number of cents
and after every sequence of `openTrade`, `closeTrade`, and
`resolveSettledTrades` operations from an empty ledger, the snapshot returned
by `calculateBankroll` satisfies
`available + invested = startingBankroll + realizedPnl`. -/
theorem calculateBankroll_identity (S : ℚ) (hS : ∃ k : ℤ, S = (k : ℚ) / 100)
    (ops : List Op) :
    (calculateBankroll (runOps ops initLedger) S).available +
      (calculateBankroll (runOps ops initLedger) S).invested =
      S + (calculateBankroll (runOps ops initLedger) S).realizedPnl := by
  obtain ⟨k, rfl⟩ := hS
  obtain ⟨c, hc⟩ := openCost_cents _ (centsLedger_runOps ops)
  unfold calculateBankroll
  dsimp only
  rw [hc]
  have h1 : (k : ℚ) / 100 - (c : ℚ) / 100 + realizedPnlOf (runOps ops initLedger) =
      realizedPnlOf (runOps ops initLedger) + ((k - c : ℤ) : ℚ) / 100 := by
    push_cast
    ring
  rw [h1, round2_add_intCents, round2_intCents]
  push_cast
  ring

unseal Rat.mul Rat.inv Rat.add Rat.sub in
/-- C1 witness: the identity at the concrete starting bankroll 1000 (a whole
number of cents) after the empty operation sequence. -/
theorem calculateBankroll_identity_witness :
    (calculateBankroll (runOps [] initLedger) 1000).available +
      (calculateBankroll (runOps [] initLedger) 1000).invested =
      1000 + (calculateBankroll (runOps [] initLedger) 1000).realizedPnl :=
  calculateBankroll_identity 1000 ⟨100000, by norm_num⟩ []

end KalshiTrader
